import Mathlib

/-!
Verification of the vector-clock repository (src/vector_clock_process.py,
src/vector_process.py).

Shallow embedding conventions:
* Process identities (string names, ports) are opaque comparable tokens,
  modelled as ℕ.
* A Python dict `{pid: counter}` is modelled by `ClockMap`: a finite key set
  together with a total valuation that is `0` outside the key set.  This makes
  Python's `d.get(k, 0)` plain function application (`ClockMap.val`), while
  keeping `{A:1}` and `{A:1, B:0}` distinct values, exactly as Python dict
  equality (`==`) distinguishes them (same keys and same values per key).
* `dict.copy()` / `dict(d)` are the identity in the pure model: messages and
  snapshots are values, which is exactly the "full independent copy, no
  aliasing" semantics the source obtains by copying.
* Counters are ℕ (the spec's `Counter`: unsigned, starts at 0).
-/

namespace VCSpec

/-- Model of a Python dict mapping process ids to counters.  `val k = 0` for
`k ∉ keys` makes `val` coincide with Python's `clock.get(k, 0)`. -/
structure ClockMap where
  keys : Finset ℕ
  val : ℕ → ℕ
  zero_outside : ∀ k, k ∉ keys → val k = 0

/-- Python dict equality `d1 == d2`: same key set and same value at every key. -/
def pyEq (a b : ClockMap) : Prop :=
  a.keys = b.keys ∧ ∀ k ∈ a.keys, a.val k = b.val k

instance (a b : ClockMap) : Decidable (pyEq a b) := by
  unfold pyEq
  exact inferInstance

/-- The empty dict `{}`. -/
def ClockMap.empty : ClockMap :=
  ⟨∅, fun _ => 0, fun _ _ => rfl⟩

/-- Python `d[k] = v`. -/
def ClockMap.set (d : ClockMap) (k v : ℕ) : ClockMap :=
  ⟨insert k d.keys, Function.update d.val k v, by
    intro j hj
    rw [Finset.mem_insert] at hj
    push_neg at hj
    rw [Function.update_apply, if_neg hj.1]
    exact d.zero_outside j hj.2⟩

/-- Build a dict from a literal list of key/value pairs, e.g. `{0: 1, 1: 0}`. -/
def ClockMap.ofList (l : List (ℕ × ℕ)) : ClockMap :=
  l.foldl (fun d p => d.set p.1 p.2) ClockMap.empty

/-- The merge loop of `VectorClock.update` (src/vector_clock_process.py lines
34-40): for every key in the union of the two key sets, store
`max(self.clock.get(k,0), received_clock.get(k,0))`.  The Python loop touches
each key of the union exactly once and each iteration reads and writes only
that key, so its denotation is this pointwise map. -/
def ClockMap.mergeMax (l r : ClockMap) : ClockMap :=
  ⟨l.keys ∪ r.keys, fun k => max (l.val k) (r.val k), by
    intro j hj
    rw [Finset.mem_union] at hj
    push_neg at hj
    show max (l.val j) (r.val j) = 0
    rw [l.zero_outside j hj.1, r.zero_outside j hj.2]
    rfl⟩

/-- The merge loop of `VectorClock.receive_message` (src/vector_process.py
lines 27-28): `for pid, val in incoming.items(): self.clock[pid] =
max(self.clock.get(pid, 0), val)`.  The loop touches exactly the keys of
`incoming`, each once, reading and writing only that key, so its denotation is
this map. -/
def ClockMap.vpMerge (l r : ClockMap) : ClockMap :=
  ⟨l.keys ∪ r.keys,
   fun k => if k ∈ r.keys then max (l.val k) (r.val k) else l.val k, by
    intro j hj
    rw [Finset.mem_union] at hj
    push_neg at hj
    show (if j ∈ r.keys then max (l.val j) (r.val j) else l.val j) = 0
    rw [if_neg hj.2]
    exact l.zero_outside j hj.1⟩

/-- `VectorClock.compare` (src/vector_clock_process.py lines 45-77).
Returns `none` for identical dicts (Python `None`), `some (-1)` for BEFORE,
`some 1` for AFTER, `some 0` for concurrent.  `less_than_all` in the source is
falsified exactly when some local value exceeds the other's, i.e. it ends up
`True` iff `self.get(k,0) ≤ other.get(k,0)` for every key of the union;
symmetrically for `greater_than_all`. -/
def ClockMap.compare (a b : ClockMap) : Option ℤ :=
  if pyEq a b then
    none
  else if ∀ k ∈ a.keys ∪ b.keys, a.val k ≤ b.val k then
    if ∀ k ∈ a.keys ∪ b.keys, b.val k ≤ a.val k then some 0 else some (-1)
  else
    if ∀ k ∈ a.keys ∪ b.keys, b.val k ≤ a.val k then some 1 else some 0

/-- `VectorClock` of src/vector_clock_process.py: a process id plus a clock
dict. -/
structure VectorClock where
  process_id : ℕ
  clock : ClockMap

/-- `VectorClock.__init__` (lines 7-19): copy the optional initial clock (or
start from `{}`), then ensure the owner's entry exists, creating it at 0. -/
def VectorClock.init (pid : ℕ) (initial : Option ClockMap) : VectorClock :=
  let c := initial.getD ClockMap.empty
  ⟨pid, if pid ∈ c.keys then c else c.set pid 0⟩

/-- `VectorClock.increment` (lines 21-24): `self.clock[self.process_id] += 1`.
The source requires the owner's key to be present (guaranteed by `__init__`
and preserved by every operation); on such states the in-place `+= 1` is this
`set`. -/
def VectorClock.increment (vc : VectorClock) : VectorClock :=
  ⟨vc.process_id, vc.clock.set vc.process_id (vc.clock.val vc.process_id + 1)⟩

/-- `VectorClock.update` (lines 26-43): pointwise-max merge over the key-set
union, then `self.increment()`. -/
def VectorClock.update (vc : VectorClock) (received : ClockMap) : VectorClock :=
  (VectorClock.mk vc.process_id (vc.clock.mergeMax received)).increment

/-- `VectorClock.compare` as a method: compares `self.clock` with the raw
`other_clock` dict. -/
def VectorClock.compare (vc : VectorClock) (other : ClockMap) : Option ℤ :=
  vc.clock.compare other

/-- `VectorClock.get_clock` (lines 91-93): returns a copy of the clock dict;
a copy is the value itself in the pure model. -/
def VectorClock.get_clock (vc : VectorClock) : ClockMap :=
  vc.clock

/-- The message dict built by `VectorClockProcess.send_message` (lines
133-138).  The payload (`content`) is opaque to the core; modelled as ℕ. -/
structure Message where
  content : ℕ
  sender : ℕ
  vector_clock : ClockMap
  target : Option ℕ

/-- One entry of `VectorClockProcess.message_log` (lines 165-169). -/
structure LogEntry where
  message : Message
  local_clock : ClockMap
  timestamp : ℕ

/-- `VectorClockProcess` (lines 103-117). -/
structure VectorClockProcess where
  process_id : ℕ
  vector_clock : VectorClock
  message_log : List LogEntry

/-- `VectorClockProcess.__init__` (lines 108-117). -/
def VectorClockProcess.init (pid : ℕ) : VectorClockProcess :=
  ⟨pid, VectorClock.init pid none, []⟩

/-- `VectorClockProcess.send_message` (lines 119-143): increment the clock,
then build the message with a fresh snapshot (`get_clock`) of the
post-increment clock.  Returns the message and the new process state. -/
def VectorClockProcess.send_message (p : VectorClockProcess) (content : ℕ)
    (target : Option ℕ) : Message × VectorClockProcess :=
  let vc := p.vector_clock.increment
  (⟨content, p.process_id, vc.get_clock, target⟩,
   ⟨p.process_id, vc, p.message_log⟩)

/-- `VectorClockProcess.receive_message` (lines 145-171): merge the message's
clock via `update`, append a log entry carrying a copy of the post-update
clock and `timestamp = len(self.message_log)` (the length before the append),
and return `True`. -/
def VectorClockProcess.receive_message (p : VectorClockProcess) (m : Message) :
    Bool × VectorClockProcess :=
  let vc := p.vector_clock.update m.vector_clock
  (true,
   ⟨p.process_id, vc,
    p.message_log ++ [⟨m, vc.get_clock, p.message_log.length⟩]⟩)

/-- `VectorClockProcess.local_event` (lines 173-177). -/
def VectorClockProcess.local_event (p : VectorClockProcess) : VectorClockProcess :=
  ⟨p.process_id, p.vector_clock.increment, p.message_log⟩

/-- The clock state of `VectorClock` in src/vector_process.py (lines 7-16):
a port plus a clock dict `{p: 0 for p in set(peers) | {port}}`. -/
structure VPClock where
  port : ℕ
  clock : ClockMap

/-- `VectorClock.__init__` of src/vector_process.py (lines 8-16). -/
def VPClock.init (port : ℕ) (peers : List ℕ) : VPClock :=
  ⟨port, ⟨insert port peers.toFinset, fun _ => 0, fun _ _ => rfl⟩⟩

/-- The message dict of src/vector_process.py.  The 'clock' field may be
absent from an inbound dict, which `message.get('clock', {})` silently turns
into the empty dict; hence `Option`. -/
structure VPMessage where
  sender_port : ℕ
  clock : Option ClockMap

/-- `VectorClock.receive_message` of src/vector_process.py (lines 22-33):
read `message.get('clock', {})`, merge it in with per-key max, then
`self.clock[self.port] = self.clock.get(self.port, 0) + 1`, and return
`True`. -/
def VPClock.receive_message (s : VPClock) (m : VPMessage) : Bool × VPClock :=
  let incoming := m.clock.getD ClockMap.empty
  let merged := s.clock.vpMerge incoming
  (true, ⟨s.port, merged.set s.port (merged.val s.port + 1)⟩)

/-- `VectorClock.send_message` of src/vector_process.py (lines 43-57): under
the lock, build `{'sender_port': self.port, 'clock': dict(self.clock)}` — a
copy of the current clock, with no increment — and hand it to the transport.
The local state is unchanged. -/
def VPClock.send_message (s : VPClock) : VPMessage × VPClock :=
  (⟨s.port, some s.clock⟩, s)

/-- `_increment_clock` body of src/vector_process.py (line 39): one tick of
the local-event loop, `self.clock[self.port] = self.clock.get(self.port, 0) + 1`. -/
def VPClock.tick (s : VPClock) : VPClock :=
  ⟨s.port, s.clock.set s.port (s.clock.val s.port + 1)⟩

/-- An abstract mutation of one `VectorClock`: a local/send increment, or a
merge of a received clock (`update`). -/
inductive ClockOp where
  | inc : ClockOp
  | merge : ClockMap → ClockOp

/-- Apply one operation. -/
def VectorClock.applyOp (vc : VectorClock) : ClockOp → VectorClock
  | .inc => vc.increment
  | .merge r => vc.update r

/-- Run a sequence of operations. -/
def VectorClock.run (vc : VectorClock) (ops : List ClockOp) : VectorClock :=
  ops.foldl VectorClock.applyOp vc

/-- A log whose entries carry their own index as sequence number. -/
def logIndexed (l : List LogEntry) : Prop :=
  ∀ i : Fin l.length, (l.get i).timestamp = i.1

/-- Concrete example dict `{0: 1}`. -/
def exA : ClockMap := ClockMap.ofList [(0, 1)]

/-- Concrete example dict `{0: 1, 1: 0}`: pointwise equal to `exA` (missing
keys read as 0) but not the same dict. -/
def exB : ClockMap := ClockMap.ofList [(0, 1), (1, 0)]

/-- Concrete example dict `{0: 2}`: strictly above `exA` pointwise. -/
def exC : ClockMap := ClockMap.ofList [(0, 2)]

/-! ## Basic lemmas about the dict model -/

theorem ClockMap.ext' {a b : ClockMap} (hk : a.keys = b.keys)
    (hv : a.val = b.val) : a = b := by
  cases a
  cases b
  simp_all

theorem pyEq_iff_eq {a b : ClockMap} : pyEq a b ↔ a = b := by
  constructor
  · rintro ⟨hk, hv⟩
    refine ClockMap.ext' hk (funext fun k => ?_)
    by_cases h : k ∈ a.keys
    · exact hv k h
    · rw [a.zero_outside k h, b.zero_outside k (hk ▸ h)]
  · rintro rfl
    exact ⟨rfl, fun _ _ => rfl⟩

theorem set_keys (d : ClockMap) (k v : ℕ) :
    (d.set k v).keys = insert k d.keys := rfl

theorem set_val (d : ClockMap) (k v j : ℕ) :
    (d.set k v).val j = if j = k then v else d.val j := by
  show Function.update d.val k v j = _
  rw [Function.update_apply]

theorem mergeMax_keys (l r : ClockMap) :
    (l.mergeMax r).keys = l.keys ∪ r.keys := rfl

theorem mergeMax_val (l r : ClockMap) (k : ℕ) :
    (l.mergeMax r).val k = max (l.val k) (r.val k) := rfl

/-- The per-key loop of src/vector_process.py computes the very same dict as
the union loop of src/vector_clock_process.py. -/
theorem vpMerge_eq_mergeMax (l r : ClockMap) : l.vpMerge r = l.mergeMax r := by
  refine ClockMap.ext' rfl (funext fun k => ?_)
  show (if k ∈ r.keys then max (l.val k) (r.val k) else l.val k)
      = max (l.val k) (r.val k)
  by_cases h : k ∈ r.keys
  · rw [if_pos h]
  · rw [if_neg h, r.zero_outside k h]
    exact (Nat.max_eq_left (Nat.zero_le _)).symm

/-! ## Pointwise comparisons versus key-set-union bounded comparisons -/

theorem ball_union_le_iff (a b : ClockMap) :
    (∀ k ∈ a.keys ∪ b.keys, a.val k ≤ b.val k) ↔ ∀ k, a.val k ≤ b.val k := by
  constructor
  · intro h k
    by_cases hk : k ∈ a.keys ∪ b.keys
    · exact h k hk
    · rw [Finset.mem_union] at hk
      push_neg at hk
      rw [a.zero_outside k hk.1, b.zero_outside k hk.2]
  · exact fun h k _ => h k

theorem ball_union_ge_iff (a b : ClockMap) :
    (∀ k ∈ a.keys ∪ b.keys, b.val k ≤ a.val k) ↔ ∀ k, b.val k ≤ a.val k := by
  rw [Finset.union_comm]
  exact ball_union_le_iff b a

/-! ## Characterization of `compare` -/

theorem compare_none_iff (a b : ClockMap) : a.compare b = none ↔ a = b := by
  unfold ClockMap.compare
  split_ifs with h1 h2 h3
  · exact iff_of_true rfl (pyEq_iff_eq.mp h1)
  all_goals
    exact iff_of_false (by simp) (fun h => h1 (pyEq_iff_eq.mpr h))

theorem compare_before_iff (a b : ClockMap) :
    a.compare b = some (-1) ↔
      ((∀ k, a.val k ≤ b.val k) ∧ ¬ ∀ k, b.val k ≤ a.val k) := by
  unfold ClockMap.compare
  split_ifs with h1 h2 h3
  · refine iff_of_false (by simp) ?_
    rintro ⟨-, hnge⟩
    have hab := pyEq_iff_eq.mp h1
    subst hab
    exact hnge fun k => le_refl _
  · refine iff_of_false (by simp) ?_
    rintro ⟨-, hnge⟩
    exact hnge ((ball_union_ge_iff a b).mp h3)
  · refine iff_of_true rfl ⟨(ball_union_le_iff a b).mp h2, ?_⟩
    intro hge
    exact h3 fun k _ => hge k
  · refine iff_of_false (by simp) ?_
    rintro ⟨hle, -⟩
    exact h2 fun k _ => hle k
  · refine iff_of_false (by simp) ?_
    rintro ⟨hle, -⟩
    exact h2 fun k _ => hle k

theorem compare_after_iff (a b : ClockMap) :
    a.compare b = some 1 ↔
      ((∀ k, b.val k ≤ a.val k) ∧ ¬ ∀ k, a.val k ≤ b.val k) := by
  unfold ClockMap.compare
  split_ifs with h1 h2 h3 h4
  · refine iff_of_false (by simp) ?_
    rintro ⟨-, hnle⟩
    have hab := pyEq_iff_eq.mp h1
    subst hab
    exact hnle fun k => le_refl _
  · refine iff_of_false (by simp) ?_
    rintro ⟨-, hnle⟩
    exact hnle ((ball_union_le_iff a b).mp h2)
  · refine iff_of_false (by simp) ?_
    rintro ⟨-, hnle⟩
    exact hnle ((ball_union_le_iff a b).mp h2)
  · refine iff_of_true rfl ⟨(ball_union_ge_iff a b).mp h4, ?_⟩
    intro hle
    exact h2 fun k _ => hle k
  · refine iff_of_false (by simp) ?_
    rintro ⟨hge, -⟩
    exact h4 fun k _ => hge k

theorem compare_concurrent_iff (a b : ClockMap) :
    a.compare b = some 0 ↔
      (a ≠ b ∧ ((∀ k, a.val k ≤ b.val k) ↔ ∀ k, b.val k ≤ a.val k)) := by
  unfold ClockMap.compare
  split_ifs with h1 h2 h3 h4
  · exact iff_of_false (by simp) fun h => h.1 (pyEq_iff_eq.mp h1)
  · exact iff_of_true rfl ⟨fun h => h1 (pyEq_iff_eq.mpr h),
      iff_of_true ((ball_union_le_iff a b).mp h2) ((ball_union_ge_iff a b).mp h3)⟩
  · refine iff_of_false (by simp) ?_
    rintro ⟨-, hiff⟩
    exact h3 fun k _ => (hiff.mp ((ball_union_le_iff a b).mp h2)) k
  · refine iff_of_false (by simp) ?_
    rintro ⟨-, hiff⟩
    exact h2 fun k _ => (hiff.mpr ((ball_union_ge_iff a b).mp h4)) k
  · exact iff_of_true rfl ⟨fun h => h1 (pyEq_iff_eq.mpr h),
      iff_of_false (fun hh => h2 fun k _ => hh k) (fun hh => h4 fun k _ => hh k)⟩

theorem compare_self_eq_none (a : ClockMap) : a.compare a = none := by
  unfold ClockMap.compare
  rw [if_pos (pyEq_iff_eq.mpr rfl)]

theorem compare_range (a b : ClockMap) :
    a.compare b = none ∨ a.compare b = some (-1) ∨ a.compare b = some 0
      ∨ a.compare b = some 1 := by
  unfold ClockMap.compare
  split_ifs <;> simp

/-! ## Evaluation lemmas for `increment` and `update` -/

theorem increment_process_id (vc : VectorClock) :
    vc.increment.process_id = vc.process_id := rfl

theorem increment_val (vc : VectorClock) (k : ℕ) :
    vc.increment.clock.val k =
      if k = vc.process_id then vc.clock.val vc.process_id + 1
      else vc.clock.val k := by
  show (vc.clock.set vc.process_id (vc.clock.val vc.process_id + 1)).val k = _
  rw [set_val]

theorem increment_keys (vc : VectorClock) :
    vc.increment.clock.keys = insert vc.process_id vc.clock.keys := rfl

theorem update_process_id (vc : VectorClock) (r : ClockMap) :
    (vc.update r).process_id = vc.process_id := rfl

theorem update_val (vc : VectorClock) (r : ClockMap) (k : ℕ) :
    (vc.update r).clock.val k =
      if k = vc.process_id then
        max (vc.clock.val vc.process_id) (r.val vc.process_id) + 1
      else max (vc.clock.val k) (r.val k) := by
  show ((vc.clock.mergeMax r).set vc.process_id
      ((vc.clock.mergeMax r).val vc.process_id + 1)).val k = _
  rw [set_val, mergeMax_val, mergeMax_val]

theorem update_keys (vc : VectorClock) (r : ClockMap) :
    (vc.update r).clock.keys = insert vc.process_id (vc.clock.keys ∪ r.keys) := rfl

/-! ## Lemmas about operation sequences -/

theorem applyOp_process_id (vc : VectorClock) (op : ClockOp) :
    (vc.applyOp op).process_id = vc.process_id := by
  cases op <;> rfl

theorem applyOp_val_le (vc : VectorClock) (op : ClockOp) (k : ℕ) :
    vc.clock.val k ≤ (vc.applyOp op).clock.val k := by
  cases op with
  | inc =>
    show vc.clock.val k ≤ vc.increment.clock.val k
    rw [increment_val]
    split_ifs with h
    · subst h
      exact Nat.le_succ _
    · exact le_refl _
  | merge r =>
    show vc.clock.val k ≤ (vc.update r).clock.val k
    rw [update_val]
    split_ifs with h
    · subst h
      exact le_trans (le_max_left _ _) (Nat.le_succ _)
    · exact le_max_left _ _

theorem applyOp_owner_mem (vc : VectorClock) (op : ClockOp) :
    vc.process_id ∈ (vc.applyOp op).clock.keys := by
  cases op with
  | inc => exact Finset.mem_insert_self _ _
  | merge r => exact Finset.mem_insert_self _ _

theorem run_append_op (vc : VectorClock) (l1 l2 : List ClockOp) :
    vc.run (l1 ++ l2) = (vc.run l1).run l2 := by
  unfold VectorClock.run
  rw [List.foldl_append]

theorem run_process_id (vc : VectorClock) (ops : List ClockOp) :
    (vc.run ops).process_id = vc.process_id := by
  induction ops generalizing vc with
  | nil => rfl
  | cons op rest ih =>
    show ((vc.applyOp op).run rest).process_id = _
    rw [ih (vc.applyOp op), applyOp_process_id]

theorem run_val_le (vc : VectorClock) (ops : List ClockOp) (k : ℕ) :
    vc.clock.val k ≤ (vc.run ops).clock.val k := by
  induction ops generalizing vc with
  | nil => exact le_refl _
  | cons op rest ih =>
    exact le_trans (applyOp_val_le vc op k) (ih (vc.applyOp op))

theorem run_owner_mem (vc : VectorClock) (ops : List ClockOp)
    (h : vc.process_id ∈ vc.clock.keys) :
    vc.process_id ∈ (vc.run ops).clock.keys := by
  induction ops generalizing vc with
  | nil => exact h
  | cons op rest ih =>
    show vc.process_id ∈ ((vc.applyOp op).run rest).clock.keys
    rw [← applyOp_process_id vc op]
    exact ih (vc.applyOp op) (by rw [applyOp_process_id]; exact applyOp_owner_mem vc op)

/-! ## Lemmas about the constructor -/

theorem init_process_id (pid : ℕ) (initial : Option ClockMap) :
    (VectorClock.init pid initial).process_id = pid := rfl

theorem init_owner_mem (pid : ℕ) (initial : Option ClockMap) :
    pid ∈ (VectorClock.init pid initial).clock.keys := by
  unfold VectorClock.init
  dsimp only
  split_ifs with h
  · exact h
  · exact Finset.mem_insert_self _ _

theorem init_val_absent (pid : ℕ) (initial : Option ClockMap)
    (h : pid ∉ (initial.getD ClockMap.empty).keys) :
    (VectorClock.init pid initial).clock.val pid = 0 := by
  unfold VectorClock.init
  dsimp only
  rw [if_neg h, set_val, if_pos rfl]

theorem init_val_present (pid : ℕ) (initial : Option ClockMap)
    (h : pid ∈ (initial.getD ClockMap.empty).keys) :
    (VectorClock.init pid initial).clock = initial.getD ClockMap.empty := by
  unfold VectorClock.init
  dsimp only
  rw [if_pos h]

theorem not_ball_le_iff (f g : ℕ → ℕ) :
    (¬ ∀ k, f k ≤ g k) ↔ ∃ k, g k < f k := by
  push_neg
  rfl

/-! ## Claim theorems -/

/-- Claim C1: for every local clock and remote mapping, the merge sets every
key of the union of the two key sets to the max of the two entries (missing
entries read as 0), the resulting key set is the full union (new keys
included), and the owner's entry is then incremented by exactly one.  Stated
for `VectorClock.update` of src/vector_clock_process.py and for
`receive_message` of src/vector_process.py. -/
theorem merge_full_union_pointwise_max_then_own_increment
    (vc : VectorClock) (r : ClockMap) (s : VPClock) (sp : ℕ) (c : ClockMap)
    (k : ℕ) :
    (vc.clock.mergeMax r).keys = vc.clock.keys ∪ r.keys
  ∧ (vc.clock.mergeMax r).val k = max (vc.clock.val k) (r.val k)
  ∧ (vc.update r).clock.keys = insert vc.process_id (vc.clock.keys ∪ r.keys)
  ∧ (vc.update r).clock.val k =
      (if k = vc.process_id then
        max (vc.clock.val vc.process_id) (r.val vc.process_id) + 1
      else max (vc.clock.val k) (r.val k))
  ∧ (s.receive_message ⟨sp, some c⟩).2.clock.keys
      = insert s.port (s.clock.keys ∪ c.keys)
  ∧ (s.receive_message ⟨sp, some c⟩).2.clock.val k =
      (if k = s.port then max (s.clock.val s.port) (c.val s.port) + 1
      else max (s.clock.val k) (c.val k)) := by
  refine ⟨rfl, rfl, rfl, update_val vc r k, rfl, ?_⟩
  show ((s.clock.vpMerge c).set s.port ((s.clock.vpMerge c).val s.port + 1)).val k = _
  rw [vpMerge_eq_mergeMax, set_val, mergeMax_val, mergeMax_val]

/-- Claim C2 (counterexample): `{0: 1}` and `{0: 1, 1: 0}` satisfy
"self ≤ other pointwise over the union (missing keys read as 0)" and are not
equal as dicts, so the claim as stated demands BEFORE (-1); the source's
`compare` returns 0 (CONCURRENT). -/
theorem compare_before_claim_counterexample :
    (∀ k ∈ exA.keys ∪ exB.keys, exA.val k ≤ exB.val k)
  ∧ exA ≠ exB
  ∧ ClockMap.compare exA exB = some 0
  ∧ ClockMap.compare exA exB ≠ some (-1) := by
  refine ⟨by decide, ?_, by decide, by decide⟩
  intro h
  exact absurd (congrArg ClockMap.keys h) (by decide)

/-- Claim C2 (amended): `compare` returns BEFORE (-1) iff self ≤ other
pointwise (missing keys read as 0) and self is strictly below other at some
key — i.e. the two are not pointwise equal; AFTER (1) iff the reverse; EQUAL
(None) iff the two dicts are identical key-for-key; CONCURRENT (0) otherwise. -/
theorem compare_classification (a b : ClockMap) :
    (a.compare b = some (-1) ↔
      ((∀ k, a.val k ≤ b.val k) ∧ ∃ k, a.val k < b.val k))
  ∧ (a.compare b = some 1 ↔
      ((∀ k, b.val k ≤ a.val k) ∧ ∃ k, b.val k < a.val k))
  ∧ (a.compare b = none ↔ a = b)
  ∧ (a.compare b = some 0 ↔
      (¬ a = b
        ∧ ¬ ((∀ k, a.val k ≤ b.val k) ∧ ∃ k, a.val k < b.val k)
        ∧ ¬ ((∀ k, b.val k ≤ a.val k) ∧ ∃ k, b.val k < a.val k))) := by
  have hB : a.compare b = some (-1) ↔
      ((∀ k, a.val k ≤ b.val k) ∧ ∃ k, a.val k < b.val k) := by
    rw [compare_before_iff, not_ball_le_iff]
  have hA : a.compare b = some 1 ↔
      ((∀ k, b.val k ≤ a.val k) ∧ ∃ k, b.val k < a.val k) := by
    rw [compare_after_iff, not_ball_le_iff]
  refine ⟨hB, hA, compare_none_iff a b, ?_⟩
  constructor
  · intro h0
    refine ⟨fun hab => ?_, fun hbef => ?_, fun haft => ?_⟩
    · rw [← compare_none_iff a b] at hab
      simpa using hab.symm.trans h0
    · simpa using (hB.mpr hbef).symm.trans h0
    · simpa using (hA.mpr haft).symm.trans h0
  · rintro ⟨hne, hnb, hna⟩
    rcases compare_range a b with h | h | h | h
    · exact absurd ((compare_none_iff a b).mp h) hne
    · exact absurd (hB.mp h) hnb
    · exact h
    · exact absurd (hA.mp h) hna

/-- Claim C2 witness: the amended characterization applied to the concrete
pair `{0: 1}` versus `{0: 2}`. -/
theorem compare_classification_witness :
    (∀ k, exA.val k ≤ exC.val k) ∧ ∃ k, exA.val k < exC.val k :=
  (compare_classification exA exC).1.mp (by decide)

/-- Claim C3: `compare` always yields exactly one of the four outcomes (None,
-1, 0, 1); it is antisymmetric — `compare(A,B) = BEFORE` iff
`compare(B,A) = AFTER`; and `compare(A,A) = EQUAL` for every dict A. -/
theorem compare_partial_order_classification (a b : ClockMap) :
    (a.compare b = none ∨ a.compare b = some (-1) ∨ a.compare b = some 0
      ∨ a.compare b = some 1)
  ∧ (a.compare b = some (-1) ↔ b.compare a = some 1)
  ∧ a.compare a = none := by
  refine ⟨compare_range a b, ?_, compare_self_eq_none a⟩
  rw [compare_before_iff, compare_after_iff]

/-- Claim C3 witness: antisymmetry applied to the concrete pair `{0: 1}` and
`{0: 2}`. -/
theorem compare_partial_order_classification_witness :
    ClockMap.compare exC exA = some 1 :=
  (compare_partial_order_classification exA exC).2.1.mp (by decide)

/-- Claim C8: the pre-increment merge is commutative and idempotent — the
per-key max combination yields the same dict regardless of argument order, and
merging a dict with itself yields that same dict. -/
theorem merge_commutative_idempotent (a b : ClockMap) :
    a.mergeMax b = b.mergeMax a ∧ a.mergeMax a = a := by
  constructor
  · refine ClockMap.ext' (Finset.union_comm _ _) (funext fun k => ?_)
    exact max_comm _ _
  · refine ClockMap.ext' (Finset.union_self _) (funext fun k => ?_)
    exact max_self _

/-- Claim C10: two dicts that are pointwise equal (missing keys read as 0) but
are not the same dict — e.g. `{0:1}` versus `{0:1, 1:0}` — compare as
CONCURRENT (0), not EQUAL, BEFORE, or AFTER. -/
theorem pointwise_equal_distinct_dicts_concurrent (a b : ClockMap)
    (hv : ∀ k, a.val k = b.val k) (hne : a ≠ b) :
    a.compare b = some 0 := by
  rw [compare_concurrent_iff]
  exact ⟨hne, iff_of_true (fun k => le_of_eq (hv k))
    (fun k => le_of_eq (hv k).symm)⟩

/-- Claim C10 witness: the concrete pair `{0:1}` versus `{0:1, 1:0}`. -/
theorem pointwise_equal_distinct_dicts_concurrent_witness :
    ClockMap.compare exA exB = some 0 := by
  refine pointwise_equal_distinct_dicts_concurrent exA exB (fun k => ?_) ?_
  · show (ClockMap.empty.set 0 1).val k = ((ClockMap.empty.set 0 1).set 1 0).val k
    rw [set_val ((ClockMap.empty).set 0 1) 1 0 k]
    by_cases h : k = 1
    · subst h
      rw [if_pos rfl, set_val, if_neg one_ne_zero]
      rfl
    · rw [if_neg h]
  · intro h
    exact absurd (congrArg ClockMap.keys h) (by decide)

/-- Claim C4 (counterexample): `send_message` of src/vector_process.py takes
its snapshot WITHOUT a prior increment.  From a fresh process on port 8001
(own entry 0), the stamped clock carries 0 for the sender — the claim demands
the post-increment value 1 (what one tick of the increment loop would have
produced) — and the local state is completely unchanged by the send. -/
theorem vp_send_no_increment_counterexample :
    ((VPClock.init 8001 []).send_message.1.clock.getD ClockMap.empty).val 8001 = 0
  ∧ (VPClock.init 8001 []).tick.clock.val 8001 = 1
  ∧ (VPClock.init 8001 []).send_message.2 = VPClock.init 8001 [] :=
  ⟨by decide, by decide, rfl⟩

/-- Claim C4 (amended): `VectorClockProcess.send_message` of
src/vector_clock_process.py first increments the sender's own entry and only
then snapshots, so the message stamp equals the local clock immediately after
the send increment (its owner entry is the pre-state's plus one), and the log
is untouched; the stamp is an independent copy (a value in the model, matching
the source's `get_clock` copy).  `send_message` of src/vector_process.py,
however, stamps a copy of the current clock with no increment and leaves the
local state unchanged. -/
theorem send_message_stamp (p : VectorClockProcess) (content : ℕ)
    (target : Option ℕ) (s : VPClock) :
    (p.send_message content target).1.vector_clock
      = (p.send_message content target).2.vector_clock.clock
  ∧ (p.send_message content target).2.vector_clock = p.vector_clock.increment
  ∧ (p.send_message content target).1.vector_clock.val p.vector_clock.process_id
      = p.vector_clock.clock.val p.vector_clock.process_id + 1
  ∧ (p.send_message content target).1.sender = p.process_id
  ∧ (p.send_message content target).2.message_log = p.message_log
  ∧ (p.send_message content target).2.process_id = p.process_id
  ∧ s.send_message.1.clock = some s.clock
  ∧ s.send_message.2 = s := by
  refine ⟨rfl, rfl, ?_, rfl, rfl, rfl, rfl, rfl⟩
  show p.vector_clock.increment.clock.val p.vector_clock.process_id = _
  rw [increment_val, if_pos rfl]

/-- Claim C5: `VectorClockProcess.receive_message` merges the message's clock
snapshot via `update`, appends exactly one log entry whose recorded local
clock is the post-merge (post-increment) clock and whose sequence number is
the entry's index in the log (the pre-append length), preserves the
0,1,2,...-indexing of the whole log, and returns True — it never rejects. -/
theorem receive_message_accepts_logs_merges (p : VectorClockProcess)
    (m : Message) :
    (p.receive_message m).1 = true
  ∧ (p.receive_message m).2.vector_clock = p.vector_clock.update m.vector_clock
  ∧ (p.receive_message m).2.message_log =
      p.message_log ++
        [LogEntry.mk m (p.receive_message m).2.vector_clock.clock
          p.message_log.length]
  ∧ (p.receive_message m).2.message_log.length = p.message_log.length + 1
  ∧ (logIndexed p.message_log → logIndexed (p.receive_message m).2.message_log) := by
  refine ⟨rfl, rfl, rfl, by simp [VectorClockProcess.receive_message], ?_⟩
  intro hind i
  show ((p.message_log ++
      [LogEntry.mk m (p.vector_clock.update m.vector_clock).clock
        p.message_log.length]).get i).timestamp = i.1
  have hi : i.1 < p.message_log.length + 1 := by
    simpa [VectorClockProcess.receive_message] using i.2
  rcases Nat.lt_or_ge i.1 p.message_log.length with hlt | hge
  · have hget : (p.message_log ++
        [LogEntry.mk m (p.vector_clock.update m.vector_clock).clock
          p.message_log.length]).get i
        = p.message_log.get ⟨i.1, hlt⟩ := by
      simp [List.getElem_append_left hlt]
    rw [hget]
    exact hind ⟨i.1, hlt⟩
  · have heq : i.1 = p.message_log.length := by omega
    have hget : (p.message_log ++
        [LogEntry.mk m (p.vector_clock.update m.vector_clock).clock
          p.message_log.length]).get i
        = LogEntry.mk m (p.vector_clock.update m.vector_clock).clock
            p.message_log.length := by
      simp [List.get_eq_getElem, heq]
    rw [hget, heq]

/-- Claim C5 witness: a fresh process receiving the message
`{content 7, sender 1, clock {1: 1}}`. -/
theorem receive_message_accepts_logs_merges_witness :
    ((VectorClockProcess.init 0).receive_message ⟨7, 1, exA, none⟩).1 = true
  ∧ logIndexed ((VectorClockProcess.init 0).receive_message ⟨7, 1, exA, none⟩).2.message_log := by
  have h := receive_message_accepts_logs_merges (VectorClockProcess.init 0)
    ⟨7, 1, exA, none⟩
  exact ⟨h.1, h.2.2.2.2 (fun i => absurd i.2 (by simp [VectorClockProcess.init]))⟩

/-- Claim C6 (code evaluation at the failing input): a message missing its
'clock' field is NOT rejected by `receive_message` of src/vector_process.py.
`message.get('clock', {})` silently substitutes the empty dict, the merge and
the self-increment proceed, the function returns True, and the local clock has
changed (port 8001: 0 before, 1 after).  No `InvalidMessage` condition exists
anywhere in the source, and neither implementation validates counter values. -/
theorem malformed_message_not_rejected :
    ((VPClock.init 8001 []).receive_message ⟨8002, none⟩).1 = true
  ∧ ((VPClock.init 8001 []).receive_message ⟨8002, none⟩).2.clock.val 8001 = 1
  ∧ (VPClock.init 8001 []).clock.val 8001 = 0
  ∧ ((VPClock.init 8001 []).receive_message ⟨8002, none⟩).2.clock
      ≠ (VPClock.init 8001 []).clock := by
  refine ⟨rfl, by decide, by decide, ?_⟩
  intro h
  have h1 : ((VPClock.init 8001 []).receive_message ⟨8002, none⟩).2.clock.val 8001 = 1 := by
    decide
  rw [h] at h1
  have h0 : (VPClock.init 8001 []).clock.val 8001 = 0 := by decide
  rw [h0] at h1
  exact absurd h1 (by decide)

/-- Claim C7: starting from the constructor, over any sequence of increment
and merge operations every entry is a natural number (non-negative) and
non-decreasing — the value after a prefix of operations is bounded by the
value after any extension — and the owner's entry is always present, created
at 0 by the constructor when absent from the initial dict. -/
theorem clock_monotone_owner_present (pid : ℕ) (initial : Option ClockMap)
    (ops extra : List ClockOp) (k : ℕ) :
    pid ∈ (VectorClock.init pid initial).clock.keys
  ∧ (pid ∉ (initial.getD ClockMap.empty).keys →
      (VectorClock.init pid initial).clock.val pid = 0)
  ∧ 0 ≤ ((VectorClock.init pid initial).run ops).clock.val k
  ∧ ((VectorClock.init pid initial).run ops).clock.val k
      ≤ ((VectorClock.init pid initial).run (ops ++ extra)).clock.val k
  ∧ pid ∈ ((VectorClock.init pid initial).run ops).clock.keys := by
  refine ⟨init_owner_mem pid initial, init_val_absent pid initial,
    Nat.zero_le _, ?_, ?_⟩
  · rw [run_append_op]
    exact run_val_le _ extra k
  · exact run_owner_mem _ ops (init_owner_mem pid initial)

/-- Claim C7 witness: process 0, no initial clock, one increment then a merge
of `{0: 1}`; entry 0 is created at 0, stays present, and never decreases. -/
theorem clock_monotone_owner_present_witness :
    (VectorClock.init 0 none).clock.val 0 = 0
  ∧ ((VectorClock.init 0 none).run [ClockOp.inc]).clock.val 0
      ≤ ((VectorClock.init 0 none).run ([ClockOp.inc] ++ [ClockOp.merge exA])).clock.val 0
  ∧ 0 ∈ ((VectorClock.init 0 none).run [ClockOp.inc]).clock.keys := by
  have h := clock_monotone_owner_present 0 none [ClockOp.inc] [ClockOp.merge exA] 0
  exact ⟨h.2.1 (by decide), h.2.2.2.1, h.2.2.2.2⟩

end VCSpec
